import Mathlib

/-!
Verification of the auto-parameterization engine for match-expression trees
(`src/mongo/db/matcher/expression_parameterization.h`).

The context (`MatchExpressionParameterizationVisitorContext`) is embedded as a
structure over an abstract node type `α` (the C++ code stores
`const MatchExpression*` back-references; here a node reference is a value of
`α`, and a possibly-null pointer is an `Option α`).  The node equivalence
predicate `MatchExpression::equivalent` is an external capability in the
source, so it is taken as a function argument `equiv : α → α → Bool`
(applied as `equiv m e` for entry `m` and probe `e`, matching
`m->equivalent(expr)`).  Integer counters are modelled as `Nat`: slot ids are
non-negative and bounded by tiny query sizes, far from any machine-width
overflow.
-/

namespace Mongo

/-- Embedding of `MatchExpressionParameterizationVisitorContext`: the slot
table (`inputParamIdToExpressionMap`), the optional budget (`maxParamCount`),
the running counter (`nextParamId`) and the sticky flag (`parameterized`). -/
structure MatchExpressionParameterizationVisitorContext (α : Type) where
  inputParamIdToExpressionMap : List α
  maxParamCount : Option Nat
  nextParamId : Nat
  parameterized : Bool
deriving Repr, DecidableEq

abbrev VCtx := MatchExpressionParameterizationVisitorContext

/-- Embedding of the constructor
`MatchExpressionParameterizationVisitorContext(inputMaxParamCount, startingParamId)`:
empty table, given budget and base, flag initialized `true`. -/
def mkContext (α : Type) (inputMaxParamCount : Option Nat) (startingParamId : Nat) :
    VCtx α :=
  { inputParamIdToExpressionMap := []
    maxParamCount := inputMaxParamCount
    nextParamId := startingParamId
    parameterized := true }

/-- Embedding of `availableParamIds(int numIds)`.  Returns the C++ return
value paired with the context after the call (the C++ method mutates the
member `parameterized`). -/
def MatchExpressionParameterizationVisitorContext.availableParamIds
    (ctx : VCtx α) (numIds : Nat) : Bool × VCtx α :=
  if ctx.parameterized = false then (false, ctx)
  else
    match ctx.maxParamCount with
    | some maxP =>
        if ctx.nextParamId + numIds > maxP then
          (false, { ctx with parameterized := false })
        else (true, ctx)
    | none => (true, ctx)

/-- Embedding of `nextInputParamId(const MatchExpression* expr)` (the C++
callers always pass a non-null node, modelled as a value of `α`).  Returns the
`boost::optional<InputParamId>` result paired with the context after the
call. -/
def MatchExpressionParameterizationVisitorContext.nextInputParamId
    (ctx : VCtx α) (expr : α) : Option Nat × VCtx α :=
  if ctx.parameterized = false then (none, ctx)
  else
    match ctx.maxParamCount with
    | some maxP =>
        if ctx.nextParamId ≥ maxP then
          (none, { ctx with parameterized := false })
        else
          (some ctx.nextParamId,
            { ctx with
                inputParamIdToExpressionMap := ctx.inputParamIdToExpressionMap ++ [expr]
                nextParamId := ctx.nextParamId + 1 })
    | none =>
        (some ctx.nextParamId,
          { ctx with
              inputParamIdToExpressionMap := ctx.inputParamIdToExpressionMap ++ [expr]
              nextParamId := ctx.nextParamId + 1 })

/-- Index of the first element satisfying `p`, modelling
`std::find_if(begin, end, p)` followed by `it - begin()` (with `none` for the
not-found case `it == end()`). -/
def findMatchIdx (p : α → Bool) : List α → Option Nat
  | [] => none
  | a :: as => if p a then some 0 else (findMatchIdx p as).map (· + 1)

/-- Embedding of `nextReusableInputParamId(const MatchExpression* expr)`.
The argument is an `Option α` because the C++ code explicitly handles a null
`expr` (the `if (expr)` guard).  On a match the source returns
`it - inputParamIdToExpressionMap.begin()`, i.e. the vector index of the
matching entry. -/
def MatchExpressionParameterizationVisitorContext.nextReusableInputParamId
    (equiv : α → α → Bool) (ctx : VCtx α) (expr : Option α) : Option Nat × VCtx α :=
  if ctx.parameterized = false then (none, ctx)
  else
    match expr with
    | some e =>
        match findMatchIdx (fun m => equiv m e) ctx.inputParamIdToExpressionMap with
        | none => ctx.nextInputParamId e
        | some i => (some i, ctx)
    | none => (none, ctx)

/-- Requests a visitor can make of the context: an `availableParamIds` check,
a fresh-slot request `nextInputParamId`, or a reusable-slot request
`nextReusableInputParamId` (whose argument may be null). -/
inductive Op (α : Type) where
  | avail (n : Nat)
  | next (e : α)
  | reusable (e : Option α)
deriving Repr, DecidableEq

/-- Result of one context operation: the boolean of `availableParamIds` or
the optional slot id of the two assignment operations. -/
inductive OpResult where
  | availR (b : Bool)
  | slotR (r : Option Nat)
deriving Repr, DecidableEq

/-- Performs one context operation, returning its result and the context
after the call. -/
def applyOp (equiv : α → α → Bool) (ctx : VCtx α) : Op α → OpResult × VCtx α
  | .avail n =>
      let r := ctx.availableParamIds n
      (.availR r.1, r.2)
  | .next e =>
      let r := ctx.nextInputParamId e
      (.slotR r.1, r.2)
  | .reusable e =>
      let r := ctx.nextReusableInputParamId equiv e
      (.slotR r.1, r.2)

/-- Runs a sequence of context operations, collecting the results. -/
def runOps (equiv : α → α → Bool) (ctx : VCtx α) :
    List (Op α) → List OpResult × VCtx α
  | [] => ([], ctx)
  | op :: ops =>
      let s := applyOp equiv ctx op
      let rest := runOps equiv s.2 ops
      (s.1 :: rest.1, rest.2)

/-- Result of an operation issued against a context that refuses all slot
assignment: `availableParamIds` answers false, both assignment operations
answer "no slot". -/
def noSlotResult : Op α → OpResult
  | .avail _ => .availR false
  | .next _ => .slotR none
  | .reusable _ => .slotR none

/-- C2: `nextInputParamId(nodeRef)` — if the `parameterized` flag is false it
returns nothing and changes nothing; else if a budget is set and the counter
has already reached it, it flips the flag to false and returns nothing;
otherwise it appends the node to the slot table, returns the new slot's id,
and increments the counter by one. -/
theorem nextInputParamId_spec (α : Type) (ctx : VCtx α) (e : α) :
    (ctx.parameterized = false → ctx.nextInputParamId e = (none, ctx)) ∧
    (ctx.parameterized = true →
      ∀ m, ctx.maxParamCount = some m → m ≤ ctx.nextParamId →
        ctx.nextInputParamId e = (none, { ctx with parameterized := false })) ∧
    (ctx.parameterized = true →
      (ctx.maxParamCount = none ∨ (∃ m, ctx.maxParamCount = some m ∧ ctx.nextParamId < m)) →
        ctx.nextInputParamId e =
          (some ctx.nextParamId,
            { ctx with
                inputParamIdToExpressionMap := ctx.inputParamIdToExpressionMap ++ [e]
                nextParamId := ctx.nextParamId + 1 })) := by
  refine ⟨fun hf => ?_, fun ht m hm hle => ?_, fun ht hroom => ?_⟩
  · simp [MatchExpressionParameterizationVisitorContext.nextInputParamId, hf]
  · simp [MatchExpressionParameterizationVisitorContext.nextInputParamId, ht, hm,
      Nat.not_lt.mpr hle, hle]
  · rcases hroom with hnone | ⟨m, hm, hlt⟩
    · simp [MatchExpressionParameterizationVisitorContext.nextInputParamId, ht, hnone]
    · simp [MatchExpressionParameterizationVisitorContext.nextInputParamId, ht, hm,
        Nat.not_le.mpr hlt]

/-- Witness for `nextInputParamId_spec`: a fresh context with budget 2 and
base 0 appends the node and returns slot 0. -/
theorem nextInputParamId_spec_witness :
    (Mongo.mkContext Nat (some 2) 0).nextInputParamId 7 =
      (some 0,
        { Mongo.mkContext Nat (some 2) 0 with
            inputParamIdToExpressionMap := [7], nextParamId := 1 }) := by
  have h := (nextInputParamId_spec Nat (Mongo.mkContext Nat (some 2) 0) 7).2.2
    rfl (Or.inr ⟨2, rfl, by decide⟩)
  simpa [Mongo.mkContext] using h

/-- C3: `availableParamIds(n)` returns true iff the flag is currently true and
assigning `n` more slots would not exceed the budget; whenever assigning `n`
more slots would exceed the budget, the call leaves the flag false and returns
false. -/
theorem availableParamIds_spec (α : Type) (ctx : VCtx α) (n : Nat) :
    ((ctx.availableParamIds n).1 = true ↔
      (ctx.parameterized = true ∧ ∀ m, ctx.maxParamCount = some m → ctx.nextParamId + n ≤ m)) ∧
    (∀ m, ctx.maxParamCount = some m → m < ctx.nextParamId + n →
      (ctx.availableParamIds n).1 = false ∧
        (ctx.availableParamIds n).2.parameterized = false) := by
  constructor
  · unfold MatchExpressionParameterizationVisitorContext.availableParamIds
    rcases hp : ctx.parameterized with _ | _
    · simp [hp]
    · rcases hm : ctx.maxParamCount with _ | m
      · simp [hp, hm]
      · by_cases hlt : ctx.nextParamId + n > m
        · simp [hp, hm, hlt, Nat.not_le.mpr hlt]
        · simp [hp, hm, hlt, Nat.not_lt.mp hlt]
  · intro m hm hlt
    unfold MatchExpressionParameterizationVisitorContext.availableParamIds
    rcases hp : ctx.parameterized with _ | _
    · simp [hp]
    · simp [hp, hm, hlt]

/-- Witness for `availableParamIds_spec`: with budget 1 and counter 0,
requesting 2 ids returns false and leaves the flag false. -/
theorem availableParamIds_spec_witness :
    ((Mongo.mkContext Nat (some 1) 0).availableParamIds 2).1 = false ∧
      ((Mongo.mkContext Nat (some 1) 0).availableParamIds 2).2.parameterized = false :=
  (availableParamIds_spec Nat (Mongo.mkContext Nat (some 1) 0) 2).2 1 rfl (by decide)

/-- C10: calling `nextReusableInputParamId` with a null node reference returns
no slot and leaves the whole context unchanged, in every context state
(including flag true with budget headroom). -/
theorem nextReusableInputParamId_null_noop (α : Type) (equiv : α → α → Bool)
    (ctx : VCtx α) :
    ctx.nextReusableInputParamId equiv none = (none, ctx) := by
  unfold MatchExpressionParameterizationVisitorContext.nextReusableInputParamId
  rcases hp : ctx.parameterized with _ | _ <;> simp [hp]

theorem applyOp_frozen (equiv : α → α → Bool) (ctx : VCtx α) (op : Op α)
    (hf : ctx.parameterized = false) :
    applyOp equiv ctx op = (noSlotResult op, ctx) := by
  cases op <;>
    simp [applyOp, noSlotResult, hf,
      MatchExpressionParameterizationVisitorContext.availableParamIds,
      MatchExpressionParameterizationVisitorContext.nextInputParamId,
      MatchExpressionParameterizationVisitorContext.nextReusableInputParamId]

theorem runOps_frozen (equiv : α → α → Bool) (ctx : VCtx α) (ops : List (Op α))
    (hf : ctx.parameterized = false) :
    runOps equiv ctx ops = (ops.map noSlotResult, ctx) := by
  induction ops with
  | nil => simp [runOps]
  | cons op ops ih => simp [runOps, applyOp_frozen equiv ctx op hf, ih]

theorem applyOp_flag_mono (equiv : α → α → Bool) (ctx : VCtx α) (op : Op α)
    (ht : (applyOp equiv ctx op).2.parameterized = true) :
    ctx.parameterized = true := by
  rcases hp : ctx.parameterized with _ | _
  · rw [applyOp_frozen equiv ctx op hp] at ht
    simp at ht
    exact absurd ht (by simp [hp])
  · rfl

theorem runOps_flag_mono (equiv : α → α → Bool) (ctx : VCtx α) (ops : List (Op α))
    (ht : (runOps equiv ctx ops).2.parameterized = true) :
    ctx.parameterized = true := by
  induction ops generalizing ctx with
  | nil => simpa [runOps] using ht
  | cons op ops ih =>
      simp only [runOps] at ht
      exact applyOp_flag_mono equiv ctx op (ih (applyOp equiv ctx op).2 ht)

/-- C4: the `parameterized` flag starts true, only ever transitions from true
to false across any sequence of `availableParamIds` / `nextInputParamId` /
`nextReusableInputParamId` calls, and once false every subsequent request
returns "no slot" (`availableParamIds` returns false) and leaves the whole
context — slot table and counter included — unchanged. -/
theorem parameterized_flag_sticky (α : Type) (equiv : α → α → Bool)
    (mb : Option Nat) (base : Nat) :
    (Mongo.mkContext α mb base).parameterized = true ∧
    (∀ (ctx : VCtx α) (op : Op α),
      (applyOp equiv ctx op).2.parameterized = true → ctx.parameterized = true) ∧
    (∀ (ctx : VCtx α) (ops : List (Op α)),
      (runOps equiv ctx ops).2.parameterized = true → ctx.parameterized = true) ∧
    (∀ (ctx : VCtx α) (ops : List (Op α)), ctx.parameterized = false →
      runOps equiv ctx ops = (ops.map noSlotResult, ctx)) :=
  ⟨rfl, fun ctx op => applyOp_flag_mono equiv ctx op,
    fun ctx ops => runOps_flag_mono equiv ctx ops,
    fun ctx ops => runOps_frozen equiv ctx ops⟩

/-- Witness for `parameterized_flag_sticky`: from a context whose flag is
already false, a concrete availability check, fresh-slot request and
reusable-slot request all answer "no slot" and leave the context unchanged. -/
theorem parameterized_flag_sticky_witness :
    runOps (fun a b : Nat => a == b)
        ⟨[], some 3, 0, false⟩
        [Op.avail 2, Op.next 5, Op.reusable (some 5)] =
      ([OpResult.availR false, OpResult.slotR none, OpResult.slotR none],
        ⟨[], some 3, 0, false⟩) :=
  (parameterized_flag_sticky Nat (fun a b => a == b) (some 3) 0).2.2.2
    ⟨[], some 3, 0, false⟩ [Op.avail 2, Op.next 5, Op.reusable (some 5)] rfl

theorem nextInputParamId_step (ctx : VCtx α) (e : α) :
    ((ctx.nextInputParamId e).2.inputParamIdToExpressionMap =
        ctx.inputParamIdToExpressionMap ∧
      (ctx.nextInputParamId e).2.nextParamId = ctx.nextParamId) ∨
    ((ctx.nextInputParamId e).1 = some ctx.nextParamId ∧
      (ctx.nextInputParamId e).2.inputParamIdToExpressionMap =
        ctx.inputParamIdToExpressionMap ++ [e] ∧
      (ctx.nextInputParamId e).2.nextParamId = ctx.nextParamId + 1) := by
  unfold MatchExpressionParameterizationVisitorContext.nextInputParamId
  rcases hp : ctx.parameterized with _ | _
  · simp [hp]
  · rcases hm : ctx.maxParamCount with _ | m
    · simp [hp, hm]
    · by_cases hge : ctx.nextParamId ≥ m <;> simp [hp, hm, hge]

theorem applyOp_step (equiv : α → α → Bool) (ctx : VCtx α) (op : Op α) :
    ((applyOp equiv ctx op).2.inputParamIdToExpressionMap =
        ctx.inputParamIdToExpressionMap ∧
      (applyOp equiv ctx op).2.nextParamId = ctx.nextParamId) ∨
    ((applyOp equiv ctx op).1 = .slotR (some ctx.nextParamId) ∧
      ∃ e, (applyOp equiv ctx op).2.inputParamIdToExpressionMap =
          ctx.inputParamIdToExpressionMap ++ [e] ∧
        (applyOp equiv ctx op).2.nextParamId = ctx.nextParamId + 1) := by
  cases op with
  | avail n =>
      left
      unfold applyOp MatchExpressionParameterizationVisitorContext.availableParamIds
      rcases hp : ctx.parameterized with _ | _
      · simp [hp]
      · rcases hm : ctx.maxParamCount with _ | m
        · simp [hp, hm]
        · by_cases hgt : ctx.nextParamId + n > m <;> simp [hp, hm, hgt]
  | next e =>
      rcases nextInputParamId_step ctx e with ⟨h1, h2⟩ | ⟨h0, h1, h2⟩
      · left
        simpa [applyOp] using ⟨h1, h2⟩
      · right
        refine ⟨?_, e, by simpa [applyOp] using h1, by simpa [applyOp] using h2⟩
        simp [applyOp, h0]
  | reusable eo =>
      unfold applyOp MatchExpressionParameterizationVisitorContext.nextReusableInputParamId
      rcases hp : ctx.parameterized with _ | _
      · simp [hp]
      · rcases eo with _ | e
        · simp [hp]
        · simp only [hp]
          rcases hfind : findMatchIdx (fun m => equiv m e)
              ctx.inputParamIdToExpressionMap with _ | i
          · simp only [hfind]
            rcases nextInputParamId_step ctx e with ⟨h1, h2⟩ | ⟨h0, h1, h2⟩
            · left
              simpa using ⟨h1, h2⟩
            · right
              exact ⟨by simp [h0], e, by simpa using h1, by simpa using h2⟩
          · simp [hfind]

/-- List of slot ids issued for newly created slots over an operation
sequence: the id an operation returned whenever that operation made the slot
table grow (reusable hits, refusals and availability checks issue nothing
new). -/
def freshIds (equiv : α → α → Bool) (ctx : VCtx α) : List (Op α) → List Nat
  | [] => []
  | op :: ops =>
      let s := applyOp equiv ctx op
      let rest := freshIds equiv s.2 ops
      if s.2.inputParamIdToExpressionMap.length =
          ctx.inputParamIdToExpressionMap.length then rest
      else
        match s.1 with
        | .slotR (some i) => i :: rest
        | _ => rest

theorem freshIds_range (equiv : α → α → Bool) (ops : List (Op α)) (ctx : VCtx α) :
    ctx.inputParamIdToExpressionMap.length ≤
      (runOps equiv ctx ops).2.inputParamIdToExpressionMap.length ∧
    (runOps equiv ctx ops).2.nextParamId =
      ctx.nextParamId + ((runOps equiv ctx ops).2.inputParamIdToExpressionMap.length -
        ctx.inputParamIdToExpressionMap.length) ∧
    freshIds equiv ctx ops =
      List.range' ctx.nextParamId
        ((runOps equiv ctx ops).2.inputParamIdToExpressionMap.length -
          ctx.inputParamIdToExpressionMap.length) := by
  induction ops generalizing ctx with
  | nil => simp [runOps, freshIds]
  | cons op ops ih =>
      obtain ⟨ihle, ihnext, ihfresh⟩ := ih (applyOp equiv ctx op).2
      rcases applyOp_step equiv ctx op with ⟨h1, h2⟩ | ⟨h0, e, h1, h2⟩
      · refine ⟨?_, ?_, ?_⟩
        · simpa [runOps, h1] using ihle
        · simpa [runOps, h1, h2] using ihnext
        · have hcond : (applyOp equiv ctx op).2.inputParamIdToExpressionMap.length =
              ctx.inputParamIdToExpressionMap.length := by rw [h1]
          simp only [freshIds, runOps, if_pos hcond]
          rw [hcond, h2] at ihfresh
          exact ihfresh
      · have hlen : (applyOp equiv ctx op).2.inputParamIdToExpressionMap.length =
            ctx.inputParamIdToExpressionMap.length + 1 := by simp [h1]
        refine ⟨?_, ?_, ?_⟩
        · simp only [runOps]
          omega
        · simp only [runOps]
          omega
        · simp only [freshIds, runOps, hlen, h0]
          rw [if_neg (by omega)]
          have hd : (runOps equiv (applyOp equiv ctx op).2 ops).2.inputParamIdToExpressionMap.length -
              ctx.inputParamIdToExpressionMap.length =
              ((runOps equiv (applyOp equiv ctx op).2 ops).2.inputParamIdToExpressionMap.length -
                (ctx.inputParamIdToExpressionMap.length + 1)) + 1 := by omega

          rw [hd, List.range'_succ]
          rw [ihfresh, hlen, h2]

/-- C5: after any operation sequence on a fresh context with base
`startingParamId`, the slot table's length equals the counter minus the base,
and the freshly issued slot ids are exactly the contiguous, strictly
increasing list `base, base+1, ..., base+k-1` where `k` is the table length —
none reused, none skipped. -/
theorem slot_ids_contiguous (α : Type) (equiv : α → α → Bool)
    (mb : Option Nat) (base : Nat) (ops : List (Op α)) :
    base ≤ (runOps equiv (Mongo.mkContext α mb base) ops).2.nextParamId ∧
    (runOps equiv (Mongo.mkContext α mb base) ops).2.inputParamIdToExpressionMap.length =
      (runOps equiv (Mongo.mkContext α mb base) ops).2.nextParamId - base ∧
    freshIds equiv (Mongo.mkContext α mb base) ops =
      List.range' base
        ((runOps equiv (Mongo.mkContext α mb base) ops).2.nextParamId - base) := by
  obtain ⟨hle, hnext, hfresh⟩ := freshIds_range equiv ops (Mongo.mkContext α mb base)
  have hnil : (Mongo.mkContext α mb base).inputParamIdToExpressionMap = ([] : List α) := rfl
  have hbase : (Mongo.mkContext α mb base).nextParamId = base := rfl
  rw [hnil] at hle hnext hfresh
  rw [hbase] at hnext hfresh
  simp only [List.length_nil, Nat.sub_zero] at hle hnext hfresh
  refine ⟨by omega, by omega, ?_⟩
  have hk : (runOps equiv (Mongo.mkContext α mb base) ops).2.nextParamId - base =
      (runOps equiv (Mongo.mkContext α mb base) ops).2.inputParamIdToExpressionMap.length := by
    omega
  rw [hk]
  exact hfresh

/-- Replaces every node reference stored in the slot table through a
structural correspondence `f`, leaving budget, counter and flag alone. -/
def MatchExpressionParameterizationVisitorContext.mapNodes (f : α → β)
    (ctx : VCtx α) : VCtx β :=
  ⟨ctx.inputParamIdToExpressionMap.map f, ctx.maxParamCount, ctx.nextParamId,
    ctx.parameterized⟩

/-- Applies a structural correspondence `f` to the node carried by an
operation. -/
def Op.mapNode (f : α → β) : Op α → Op β
  | .avail n => .avail n
  | .next e => .next (f e)
  | .reusable e => .reusable (e.map f)

theorem findMatchIdx_map (p : β → Bool) (f : α → β) (l : List α) :
    findMatchIdx p (l.map f) = findMatchIdx (fun a => p (f a)) l := by
  induction l with
  | nil => rfl
  | cons a as ih => by_cases h : p (f a) <;> simp [findMatchIdx, h, ih]

theorem applyOp_mapNodes (f : α → β) (equivA : α → α → Bool) (equivB : β → β → Bool)
    (hEq : ∀ a b, equivB (f a) (f b) = equivA a b) (ctx : VCtx α) (op : Op α) :
    applyOp equivB (ctx.mapNodes f) (op.mapNode f) =
      ((applyOp equivA ctx op).1, (applyOp equivA ctx op).2.mapNodes f) := by
  cases op with
  | avail n =>
      simp only [applyOp, Op.mapNode,
        MatchExpressionParameterizationVisitorContext.availableParamIds,
        MatchExpressionParameterizationVisitorContext.mapNodes]
      rcases hp : ctx.parameterized with _ | _
      · simp [hp]
      · rcases hm : ctx.maxParamCount with _ | m
        · simp [hp, hm]
        · by_cases hgt : ctx.nextParamId + n > m <;> simp [hp, hm, hgt]
  | next e =>
      simp only [applyOp, Op.mapNode,
        MatchExpressionParameterizationVisitorContext.nextInputParamId,
        MatchExpressionParameterizationVisitorContext.mapNodes]
      rcases hp : ctx.parameterized with _ | _
      · simp [hp]
      · rcases hm : ctx.maxParamCount with _ | m
        · simp [hp, hm]
        · by_cases hge : ctx.nextParamId ≥ m <;> simp [hp, hm, hge]
  | reusable eo =>
      simp only [applyOp, Op.mapNode,
        MatchExpressionParameterizationVisitorContext.nextReusableInputParamId,
        MatchExpressionParameterizationVisitorContext.mapNodes]
      rcases hp : ctx.parameterized with _ | _
      · rcases eo with _ | e <;> simp [hp]
      · rcases eo with _ | e
        · simp [hp]
        · have hfind : findMatchIdx (fun m => equivB m (f e))
              (ctx.inputParamIdToExpressionMap.map f) =
              findMatchIdx (fun a => equivA a e) ctx.inputParamIdToExpressionMap := by
            rw [findMatchIdx_map]
            exact congrArg (fun p => findMatchIdx p ctx.inputParamIdToExpressionMap)
              (funext fun a => hEq a e)
          rcases hf : findMatchIdx (fun a => equivA a e)
              ctx.inputParamIdToExpressionMap with _ | i
          · rw [hf] at hfind
            rcases hm : ctx.maxParamCount with _ | m
            · simp [hp, hfind, hf, hm,
                MatchExpressionParameterizationVisitorContext.nextInputParamId]
            · by_cases hge : ctx.nextParamId ≥ m <;>
                simp [hp, hfind, hf, hm, hge,
                  MatchExpressionParameterizationVisitorContext.nextInputParamId]
          · rw [hf] at hfind
            simp [hp, hfind, hf,
              MatchExpressionParameterizationVisitorContext.mapNodes]

theorem runOps_mapNodes (f : α → β) (equivA : α → α → Bool) (equivB : β → β → Bool)
    (hEq : ∀ a b, equivB (f a) (f b) = equivA a b) (ctx : VCtx α) (ops : List (Op α)) :
    runOps equivB (ctx.mapNodes f) (ops.map (Op.mapNode f)) =
      ((runOps equivA ctx ops).1, (runOps equivA ctx ops).2.mapNodes f) := by
  induction ops generalizing ctx with
  | nil => simp [runOps]
  | cons op ops ih =>
      simp only [List.map_cons, runOps, applyOp_mapNodes f equivA equivB hEq ctx op,
        ih (applyOp equivA ctx op).2]

/-- C7: two freshly constructed contexts with the same budget and base, fed
the same sequence of slot-assignment requests over corresponding inputs whose
equivalence tests answer identically (correspondence `f` with
`equivB (f a) (f b) = equivA a b`), return identical results at every step
and end with identical slot tables up to the correspondence, identical
counters and identical flags. -/
theorem identical_runs_identical_slots (α β : Type) (f : α → β)
    (equivA : α → α → Bool) (equivB : β → β → Bool)
    (mb : Option Nat) (base : Nat) (ops : List (Op α))
    (hEq : ∀ a b, equivB (f a) (f b) = equivA a b) :
    runOps equivB (Mongo.mkContext β mb base) (ops.map (Op.mapNode f)) =
      ((runOps equivA (Mongo.mkContext α mb base) ops).1,
        (runOps equivA (Mongo.mkContext α mb base) ops).2.mapNodes f) := by
  have hmk : Mongo.mkContext β mb base = (Mongo.mkContext α mb base).mapNodes f := rfl
  rw [hmk]
  exact runOps_mapNodes f equivA equivB hEq (Mongo.mkContext α mb base) ops

/-- Witness for `identical_runs_identical_slots`: the correspondence
`Nat.succ` with equality-by-`==` on both sides, over a concrete request
sequence with a budget of 2. -/
theorem identical_runs_identical_slots_witness :
    runOps Nat.beq (Mongo.mkContext Nat (some 2) 0)
        ([Op.next 4, Op.reusable (some 4), Op.avail 1].map
          (Op.mapNode Nat.succ)) =
      ((runOps Nat.beq (Mongo.mkContext Nat (some 2) 0)
          [Op.next 4, Op.reusable (some 4), Op.avail 1]).1,
        (runOps Nat.beq (Mongo.mkContext Nat (some 2) 0)
          [Op.next 4, Op.reusable (some 4), Op.avail 1]).2.mapNodes Nat.succ) :=
  identical_runs_identical_slots Nat Nat Nat.succ
    Nat.beq Nat.beq (some 2) 0
    [Op.next 4, Op.reusable (some 4), Op.avail 1] (fun _ _ => rfl)

/-- Literal operand values, as far as the visitor's eligibility policy
inspects them: the minimum-bound and maximum-bound sentinels (MinKey/MaxKey),
null, NaN, arrays, regular-expression patterns, and the remaining ordinary
scalars (collapsed to numbers and strings, which the policy never
distinguishes). -/
inductive BsonValue where
  | minKey
  | maxKey
  | null
  | nan
  | array (elems : List BsonValue)
  | regex (pat : String)
  | intV (n : Int)
  | strV (s : String)
deriving Repr

/-- Comparison operator tags of the comparison expressions the visitor routes
through `visitComparisonMatchExpression` (Equality, GT, GTE, LT, LTE). -/
inductive CompOp where
  | eq
  | gt
  | gte
  | lt
  | lte
deriving Repr, DecidableEq

/-- Nodes of the match-expression kinds the claims reason about, each
carrying its field path, its literal operand(s) and the optional input
parameter id slot(s) the visitor may attach. -/
inductive MatchNode where
  | comparison (op : CompOp) (path : String) (literal : BsonValue)
      (inputParamId : Option Nat)
  | inMatch (path : String) (equalities : List BsonValue) (inputParamId : Option Nat)
  | internalEqHashedKey (path : String) (literal : BsonValue) (inputParamId : Option Nat)
  | bitTest (path : String) (bitPositions : List Nat) (bitMask : Nat)
      (bitPositionsParamId : Option Nat) (bitMaskParamId : Option Nat)
deriving Repr

/-- Literals that disqualify a comparison node from parameterization, per the
header's policy list: "Comparison expressions, unless compared against
MinKey, MaxKey, null or NaN value or array". -/
def isComparisonDisqualifyingLiteral : BsonValue → Bool
  | .minKey => true
  | .maxKey => true
  | .null => true
  | .nan => true
  | .array _ => true
  | _ => false

/-- Values that disqualify an `$in` node from parameterization, per the
header's policy list: "InMatchExpression, unless it contains an array, null
or regexp value". -/
def isInDisqualifyingValue : BsonValue → Bool
  | .array _ => true
  | .null => true
  | .regex _ => true
  | _ => false

/-- Modelled from the spec: the body of
`MatchExpressionParameterizationVisitor::visitComparisonMatchExpression` is
declared but not defined under src.  Per the spec's single-slot-leaf policy,
an eligible comparison requests one reusable slot via
`nextReusableInputParamId` and attaches the returned id, but a node whose
literal operand is a MinKey/MaxKey sentinel, null, NaN or an array is left
unparameterized (no request made, literal kept). -/
def visitComparisonMatchExpression (equiv : MatchNode → MatchNode → Bool)
    (ctx : VCtx MatchNode) (node : MatchNode) : VCtx MatchNode × MatchNode :=
  match node with
  | .comparison op path lit pid =>
      if isComparisonDisqualifyingLiteral lit then (ctx, .comparison op path lit pid)
      else
        let r := ctx.nextReusableInputParamId equiv (some (.comparison op path lit pid))
        (r.2, .comparison op path lit r.1)
  | _ => (ctx, node)

/-- Modelled from the spec: the body of the `InMatchExpression` visit is
declared but not defined under src.  Per the spec's membership-test policy,
the whole value list is one reusable parameterizable unit, but a list
containing an array, a null or a pattern value leaves the node entirely
unparameterized. -/
def visitInMatchExpression (equiv : MatchNode → MatchNode → Bool)
    (ctx : VCtx MatchNode) (node : MatchNode) : VCtx MatchNode × MatchNode :=
  match node with
  | .inMatch path vals pid =>
      if vals.any isInDisqualifyingValue then (ctx, .inMatch path vals pid)
      else
        let r := ctx.nextReusableInputParamId equiv (some (.inMatch path vals pid))
        (r.2, .inMatch path vals r.1)
  | _ => (ctx, node)

/-- Modelled from the spec: the body of
`MatchExpressionParameterizationVisitor::visitBitTestExpression` is declared
but not defined under src.  Per the spec's multi-slot policy, a bit-test node
needs exactly two non-reusable slots (bit positions and mask), assigned
all-or-nothing: it first checks `availableParamIds(2)` and, only when that
answers true, requests the two slots with two `nextInputParamId` calls;
otherwise neither slot is requested and the node is left unparameterized. -/
def visitBitTestExpression (_equiv : MatchNode → MatchNode → Bool)
    (ctx : VCtx MatchNode) (node : MatchNode) : VCtx MatchNode × MatchNode :=
  match node with
  | .bitTest path positions mask pid1 pid2 =>
      let a := ctx.availableParamIds 2
      if a.1 then
        let r1 := a.2.nextInputParamId (.bitTest path positions mask pid1 pid2)
        let r2 := r1.2.nextInputParamId (.bitTest path positions mask pid1 pid2)
        (r2.2, .bitTest path positions mask r1.1 r2.1)
      else (a.2, node)
  | _ => (ctx, node)

/-- Dispatch of `MatchExpressionParameterizationVisitor::visit` over the
modelled node kinds.  The `internalEqHashedKey` arm is translated from src:
`visit(InternalEqHashedKey*)` has an empty body ("Don't support
parameterization of InternEqHashedKey because it is not implemented in
SBE"), so it touches neither the context nor the node.  The other arms
delegate to the spec-modelled policy bodies above. -/
def visit (equiv : MatchNode → MatchNode → Bool) (ctx : VCtx MatchNode)
    (node : MatchNode) : VCtx MatchNode × MatchNode :=
  match node with
  | .comparison .. => visitComparisonMatchExpression equiv ctx node
  | .inMatch .. => visitInMatchExpression equiv ctx node
  | .internalEqHashedKey .. => (ctx, node)
  | .bitTest .. => visitBitTestExpression equiv ctx node

/-- C8: visiting an `InternalEqHashedKey` node never assigns a parameter
slot, never modifies the context and never modifies the node, whatever the
context state and equivalence predicate — the hashed-key kind is excluded
from the general single-slot-leaf policy. -/
theorem internalEqHashedKey_never_parameterized
    (equiv : MatchNode → MatchNode → Bool) (ctx : VCtx MatchNode)
    (path : String) (lit : BsonValue) (pid : Option Nat) :
    visit equiv ctx (.internalEqHashedKey path lit pid) =
      (ctx, .internalEqHashedKey path lit pid) := rfl

/-- C9: a comparison node whose literal operand is MinKey, MaxKey, null, NaN
or an array, and a membership-test node whose value list contains an array, a
null or a pattern value, are left entirely unparameterized by the visitor: the
context is untouched (no slot consumed) and the node keeps its literal. -/
theorem disqualified_literals_left_unparameterized
    (equiv : MatchNode → MatchNode → Bool) (ctx : VCtx MatchNode) :
    (∀ (op : CompOp) (path : String) (lit : BsonValue) (pid : Option Nat),
      (lit = .minKey ∨ lit = .maxKey ∨ lit = .null ∨ lit = .nan ∨
          ∃ es, lit = .array es) →
        visit equiv ctx (.comparison op path lit pid) =
          (ctx, .comparison op path lit pid)) ∧
    (∀ (path : String) (vals : List BsonValue) (pid : Option Nat),
      (∃ v ∈ vals, v = .null ∨ (∃ es, v = .array es) ∨ ∃ s, v = .regex s) →
        visit equiv ctx (.inMatch path vals pid) = (ctx, .inMatch path vals pid)) := by
  constructor
  · intro op path lit pid hdisq
    have hd : isComparisonDisqualifyingLiteral lit = true := by
      rcases hdisq with h | h | h | h | ⟨es, h⟩ <;>
        simp [h, isComparisonDisqualifyingLiteral]
    simp [visit, visitComparisonMatchExpression, hd]
  · intro path vals pid hdisq
    have hd : vals.any isInDisqualifyingValue = true := by
      rcases hdisq with ⟨v, hv, hcase⟩
      refine List.any_eq_true.mpr ⟨v, hv, ?_⟩
      rcases hcase with h | ⟨es, h⟩ | ⟨s, h⟩ <;> simp [h, isInDisqualifyingValue]
    simp [visit, visitInMatchExpression, hd]

/-- Witness for `disqualified_literals_left_unparameterized`: an equality
comparison against null and an `$in` whose list contains an (empty) array are
both left untouched on a fresh unlimited-budget context. -/
theorem disqualified_literals_left_unparameterized_witness :
    visit (fun _ _ => false) (Mongo.mkContext MatchNode none 0)
        (.comparison .eq "a" .null none) =
      (Mongo.mkContext MatchNode none 0, .comparison .eq "a" .null none) ∧
    visit (fun _ _ => false) (Mongo.mkContext MatchNode none 0)
        (.inMatch "b" [.intV 1, .array []] none) =
      (Mongo.mkContext MatchNode none 0, .inMatch "b" [.intV 1, .array []] none) :=
  ⟨(disqualified_literals_left_unparameterized (fun _ _ => false)
      (Mongo.mkContext MatchNode none 0)).1 .eq "a" .null none
      (Or.inr (Or.inr (Or.inl rfl))),
    (disqualified_literals_left_unparameterized (fun _ _ => false)
      (Mongo.mkContext MatchNode none 0)).2 "b" [.intV 1, .array []] none
      ⟨.array [], by simp, Or.inr (Or.inl ⟨[], rfl⟩)⟩⟩

/-- C6: with budget 1 on a fresh context, a bit-test node needing 2 slots as
the first eligible candidate gets `availableParamIds(2) = false`, receives
zero slots (not one), flips the flag to false, and leaves the slot table and
the counter unchanged — no partial assignment is observable. -/
theorem bitTest_all_or_nothing :
    ((Mongo.mkContext MatchNode (some 1) 0).availableParamIds 2).1 = false ∧
    visit (fun _ _ => false) (Mongo.mkContext MatchNode (some 1) 0)
        (.bitTest "a" [1, 3] 5 none none) =
      ({ Mongo.mkContext MatchNode (some 1) 0 with parameterized := false },
        .bitTest "a" [1, 3] 5 none none) ∧
    (visit (fun _ _ => false) (Mongo.mkContext MatchNode (some 1) 0)
        (.bitTest "a" [1, 3] 5 none none)).1.inputParamIdToExpressionMap = [] ∧
    (visit (fun _ _ => false) (Mongo.mkContext MatchNode (some 1) 0)
        (.bitTest "a" [1, 3] 5 none none)).1.nextParamId = 0 ∧
    (visit (fun _ _ => false) (Mongo.mkContext MatchNode (some 1) 0)
        (.bitTest "a" [1, 3] 5 none none)).1.parameterized = false :=
  ⟨rfl, rfl, rfl, rfl, rfl⟩

/-- C1 counter-evidence: with a non-zero base (`startingParamId = 1`) the
first  node is assigned SlotId 1, yet a later `nextReusableInputParamId` call
on an equivalent node returns 0 — the vector index of the matching entry, not
the SlotId that entry was assigned — while consuming no new slot and adding
no new entry. -/
theorem reusable_param_id_ignores_base :
    ((Mongo.mkContext Nat none 1).nextInputParamId 7).1 = some 1 ∧
    (((Mongo.mkContext Nat none 1).nextInputParamId 7).2.nextReusableInputParamId
        (fun a b => a == b) (some 7)).1 = some 0 ∧
    (((Mongo.mkContext Nat none 1).nextInputParamId 7).2.nextReusableInputParamId
        (fun a b => a == b) (some 7)).2 =
      ((Mongo.mkContext Nat none 1).nextInputParamId 7).2 := by
  refine ⟨rfl, rfl, rfl⟩

end Mongo
